import Mathlib

/-!
Verification of the metadata resolution engine of the 0x74617465.sh writeup
pipeline (build.py).  Python strings are modelled as lists of characters
(one entry per Unicode code point, as in Python); the regular expressions
of the source are translated into explicit scanning functions reproducing
the leftmost-match and backtracking behaviour of the re module on the
pattern shapes that occur in the source.  Case mapping and character
classes are modelled at ASCII precision, which covers every character
class decision the source makes on its inputs; the emoji the source
inspects (the lock, hourglass and memo glyphs) are single code points in
both models.
-/

set_option maxHeartbeats 1000000

namespace Build

/-- Characters of a document: a Python string as a list of code points. -/
abbrev Str := List Char

/-- Embed a Lean string literal into the character-list representation. -/
def str (s : String) : Str := s.data

/-- Whitespace for the re module's backslash-s class and for str.strip (ASCII range). -/
def isPySpace (c : Char) : Bool :=
  c = ' ' || c = '\t' || c = '\n' || c = '\r' || c = '\x0b' || c = '\x0c'

/-- Word character for the re module's backslash-w class: letter, digit or underscore (ASCII model). -/
def isWordChar (c : Char) : Bool := c.isAlphanum || c = '_'

/-- Python str.lower (ASCII model). -/
def lowerStr (s : Str) : Str := s.map Char.toLower

/-- Remove characters satisfying p from both ends (Python str.strip family). -/
def stripPred (p : Char → Bool) (s : Str) : Str :=
  ((s.dropWhile p).reverse.dropWhile p).reverse

/-- Python str.strip() with no argument: strip whitespace. -/
def stripStr (s : Str) : Str := stripPred isPySpace s

/-- Prefix test: does pat occur at the start of s? -/
def startsWithStr : Str → Str → Bool
  | [], _ => true
  | _ :: _, [] => false
  | p :: ps, c :: cs => p == c && startsWithStr ps cs

/-- Case-insensitive prefix test; pat is supplied already lower-cased. -/
def startsWithCI (pat s : Str) : Bool := startsWithStr pat (lowerStr s)

/-- Substring test: does pat occur anywhere in s (Python in operator)? -/
def containsSubstr (pat : Str) : Str → Bool
  | [] => pat.isEmpty
  | c :: rest => startsWithStr pat (c :: rest) || containsSubstr pat rest

/-- Prefix of s before the first occurrence of pat, or all of s when pat is absent:
the lazy dot-star capture bounded by a lookahead for pat or end of input. -/
def takeUntilSubstr (pat : Str) : Str → Str
  | [] => []
  | c :: rest => if startsWithStr pat (c :: rest) then [] else c :: takeUntilSubstr pat rest

/-- For a backslash-s-star backslash-n tail of a pattern: the suffix of s just after the
last newline of the leading whitespace run of s, or none when that run has no newline.
This reproduces the re module's backtracking on greedy whitespace followed by a
mandatory newline. -/
def afterLastNl : Str → Option Str
  | [] => none
  | c :: rest =>
    if isPySpace c then
      match afterLastNl rest with
      | some r => some r
      | none => if c = '\n' then some rest else none
    else none

-- ── SLUG (build.py slugify) ──────────────────────────────────────────────────

/-- Whitespace-or-underscore class of the slug substitution. -/
def isSpUnd (c : Char) : Bool := isPySpace c || c = '_'

/-- Scanner for the re.sub pass replacing every maximal run of whitespace or
underscores by a single hyphen; the flag records whether the previous character
belonged to the run being replaced. -/
def subSpUndGo : Bool → Str → Str
  | _, [] => []
  | inRun, c :: rest =>
    if isSpUnd c then
      if inRun then subSpUndGo true rest else '-' :: subSpUndGo true rest
    else c :: subSpUndGo false rest

/-- One re.sub pass replacing every maximal run of whitespace or underscores by a
single hyphen (pattern: one-or-more of the whitespace-or-underscore class). -/
def subSpUnd (s : Str) : Str := subSpUndGo false s

/-- Scanner for the re.sub pass collapsing hyphen runs, with the same run flag. -/
def subHypGo : Bool → Str → Str
  | _, [] => []
  | inRun, c :: rest =>
    if c = '-' then
      if inRun then subHypGo true rest else '-' :: subHypGo true rest
    else c :: subHypGo false rest

/-- One re.sub pass replacing every maximal run of hyphens by a single hyphen. -/
def subHyp (s : Str) : Str := subHypGo false s

/-- build.py slugify: lower-case and strip, drop characters outside word
characters, whitespace and hyphen, collapse whitespace and underscore runs to a
hyphen, collapse hyphen runs, and strip hyphens from both ends. -/
def slugify (text : Str) : Str :=
  let s1 := stripStr (lowerStr text)
  let s2 := s1.filter (fun c => isWordChar c || isPySpace c || c = '-')
  let s3 := subSpUnd s2
  let s4 := subHyp s3
  stripPred (· = '-') s4

-- ── ATTRIBUTE MAP (build.py parse_readme_meta) ───────────────────────────────

/-- The single-quote character, kept out of literal position. -/
def squote : Char := Char.ofNat 39

/-- Lookup in the attribute map (Python dict; keys are unique by construction). -/
def metaFind (m : List (Str × Str)) (k : Str) : Option Str :=
  (m.find? (fun p => p.1 == k)).map (fun p => p.2)

/-- Python dict.get with a default. -/
def metaGetD (m : List (Str × Str)) (k d : Str) : Str := (metaFind m k).getD d

/-- Python dict assignment: replace the value when the key exists, append otherwise. -/
def dictUpsert (m : List (Str × Str)) (k v : Str) : List (Str × Str) :=
  if m.any (fun p => p.1 == k) then m.map (fun p => if p.1 == k then (k, v) else p)
  else m ++ [(k, v)]

/-- Python str.splitlines restricted to newline boundaries (the front-matter body
never contains the rarer line terminators in this corpus): no empty trailing line. -/
def splitLines : Str → List Str
  | [] => []
  | c :: rest =>
    if c = '\n' then [] :: splitLines rest
    else
      match splitLines rest with
      | [] => [[c]]
      | l :: ls => (c :: l) :: ls

/-- Body of a leading YAML front-matter block: after the opening dash line, the
greedy whitespace of the pattern ends at the last newline of the run, and the lazy
capture runs to the first newline-dashes occurrence, which must exist.  (When the
only closing occurrence starts exactly at that last newline, the re module
backtracks and matches a whitespace-only body; that body contains no colon line,
so the resulting attribute map is empty either way, exactly as with none here.) -/
def fmBody (text : Str) : Option Str :=
  match text with
  | '-' :: '-' :: '-' :: t =>
    match afterLastNl t with
    | none => none
    | some u =>
      if containsSubstr (str "\n---") u then some (takeUntilSubstr (str "\n---") u)
      else none
  | _ => none

/-- Fold the front-matter body into the attribute map: each colon line contributes
its stripped lower-cased key and its value stripped of whitespace and quotes. -/
def fmMeta (body : Str) : List (Str × Str) :=
  (splitLines body).foldl
    (fun m line =>
      if containsSubstr (str ":") line then
        let k := line.takeWhile (fun c => !(c == ':'))
        let v := (line.dropWhile (fun c => !(c == ':'))).drop 1
        dictUpsert m (lowerStr (stripStr k))
          (stripPred (· = squote) (stripPred (· = '"') (stripStr v)))
      else m)
    []

/-- Value part of an inline key pattern: greedy whitespace, then a non-empty
greedy run of non-newline characters, with the re module's backtracking into the
whitespace run when the text ends inside it. -/
def matchValueAfter (v : Str) : Option Str :=
  let run := v.takeWhile isPySpace
  let after := v.drop run.length
  match after with
  | _ :: _ => some (after.takeWhile (fun c => !(c == '\n')))
  | [] =>
    match (run.filter (fun c => !(c == '\n'))).getLast? with
    | some c => some [c]
    | none => none

/-- Try each pattern literal (already lower-cased) at the current position, in
order, completing each with its value part before moving to the next. -/
def tryPatsAt : List Str → Str → Option Str
  | [], _ => none
  | p :: ps, s =>
    if startsWithCI p s then
      match matchValueAfter (s.drop p.length) with
      | some v => some v
      | none => tryPatsAt ps s
    else tryPatsAt ps s

/-- Leftmost re.search over all positions for the decorated (bold) patterns. -/
def searchPats (pats : List Str) : Str → Option Str
  | [] => none
  | c :: rest =>
    match tryPatsAt pats (c :: rest) with
    | some v => some v
    | none => searchPats pats rest

/-- Leftmost re.search restricted to line starts (multi-line anchored patterns). -/
def searchPlainGo (pats : List Str) : Bool → Str → Option Str
  | _, [] => none
  | atStart, c :: rest =>
    match (if atStart then tryPatsAt pats (c :: rest) else none) with
    | some v => some v
    | none => searchPlainGo pats (c == '\n') rest

/-- Search the anchored plain patterns from the start of the text. -/
def searchPlain (pats : List Str) (s : Str) : Option Str := searchPlainGo pats true s

/-- Canonical keys with their decorated and plain pattern literals; the os key
also accepts the platform label in both shapes. -/
def keyPatterns : List (Str × List Str × List Str) :=
  [ (str "status",     [str "**status:**"],                  [str "status:"]),
    (str "difficulty", [str "**difficulty:**"],              [str "difficulty:"]),
    (str "platform",   [str "**platform:**"],                [str "platform:"]),
    (str "os",         [str "**os:**", str "**platform:**"], [str "os:", str "platform:"]),
    (str "category",   [str "**category:**"],                [str "category:"]) ]

/-- build.py parse_readme_meta: YAML front matter first, then for each canonical
key not yet populated the decorated pattern, then the plain pattern; the first
match anywhere in the text wins and its captured value is stripped. -/
def parse_readme_meta (text : Str) : List (Str × Str) :=
  let meta0 := match fmBody text with
    | some body => fmMeta body
    | none => []
  keyPatterns.foldl
    (fun m kp =>
      if m.any (fun p => p.1 == kp.1) then m
      else
        match searchPats kp.2.1 text with
        | some v => m ++ [(kp.1, stripStr v)]
        | none =>
          match searchPlain kp.2.2 text with
          | some v => m ++ [(kp.1, stripStr v)]
          | none => m)
    meta0

-- ── SECTION EXTRACTORS (build.py extract_summary_from_readme, extract_teaser) ─

/-- Lazy section capture bounded by the lookahead for a newline and two hashes,
or the end of the text. -/
def captureSection (s : Str) : Str := takeUntilSubstr (str "\n##") s

/-- Match the Summary heading pattern at the current position: two hashes,
greedy whitespace, an optional memo glyph with more whitespace, the word
Summary case-insensitively, then whitespace ending in at least one newline;
returns the suffix where the capture starts. -/
def matchSummaryHeadAt (s : Str) : Option Str :=
  match s with
  | '#' :: '#' :: t =>
    let u := t.dropWhile isPySpace
    let u2 := match u with
      | c :: rest => if c = '📝' then rest.dropWhile isPySpace else u
      | [] => u
    if startsWithCI (str "summary") u2 then afterLastNl (u2.drop 7)
    else none
  | _ => none

/-- Leftmost position where the Summary heading pattern matches. -/
def findSummaryContent : Str → Option Str
  | [] => none
  | c :: rest =>
    match matchSummaryHeadAt (c :: rest) with
    | some r => some r
    | none => findSummaryContent rest

/-- Flush a pending whitespace run for the newline-collapsing substitution:
a run containing a newline becomes one space, any other run is kept. -/
def flushWs (pend : Str) : Str := if pend.contains '\n' then [' '] else pend

/-- Scanner for the re.sub pass replacing every maximal whitespace run that
contains a newline by a single space. -/
def collapseGo : Str → Str → Str
  | pend, [] => flushWs pend
  | pend, c :: rest =>
    if isPySpace c then collapseGo (pend ++ [c]) rest
    else flushWs pend ++ c :: collapseGo [] rest

/-- The newline-collapsing substitution of extract_summary_from_readme. -/
def collapseNL (s : Str) : Str := collapseGo [] s

/-- Scanner for the emphasis-stripping substitution: a star run, a non-empty
non-star body and a closing star run are replaced by the body; the fuel is the
length of the scanned text, which bounds the number of steps. -/
def stripEmphGo : Nat → Str → Str
  | 0, s => s
  | _, [] => []
  | Nat.succ n, c :: rest =>
    if c = '*' then
      let stars := rest.takeWhile (· = '*')
      let afterStars := rest.drop stars.length
      let body := afterStars.takeWhile (fun d => !(d == '*'))
      let afterBody := afterStars.drop body.length
      match afterBody with
      | '*' :: t2 =>
        if body.isEmpty then c :: stripEmphGo n rest
        else body ++ stripEmphGo n (t2.dropWhile (· = '*'))
      | _ => c :: stripEmphGo n rest
    else c :: stripEmphGo n rest

/-- The emphasis-stripping substitution of extract_summary_from_readme. -/
def stripEmph (s : Str) : Str := stripEmphGo s.length s

/-- build.py extract_summary_from_readme: first paragraph of the Summary
section, newlines collapsed, emphasis markers stripped. -/
def extract_summary_from_readme (text : Str) : Str :=
  match findSummaryContent text with
  | none => []
  | some cs =>
    let content := stripStr (captureSection cs)
    let firstPara := stripStr (takeUntilSubstr (str "\n\n") content)
    stripStr (stripEmph (collapseNL firstPara))

/-- After the literal Teaser: the rest of the line, then a mandatory greedy
newline run; returns the suffix where the capture starts. -/
def teaserTail (w : Str) : Option Str :=
  let w2 := w.dropWhile (fun c => !(c == '\n'))
  match w2 with
  | '\n' :: _ => some (w2.dropWhile (· = '\n'))
  | _ => none

/-- Backtracking over the greedy non-newline run before the literal Teaser:
try the largest offset first, as the re module does. -/
def teaserB (u : Str) : Nat → Option Str
  | 0 => if startsWithCI (str "teaser") u then teaserTail (u.drop 6) else none
  | Nat.succ b =>
    match
      (if startsWithCI (str "teaser") (u.drop (b + 1)) then teaserTail (u.drop (b + 1 + 6))
       else none) with
    | some r => some r
    | none => teaserB u b

/-- Backtracking over the greedy whitespace run after the two hashes: try the
largest length first, as the re module does. -/
def teaserA (t : Str) : Nat → Option Str
  | 0 => teaserB t (t.takeWhile (fun c => !(c == '\n'))).length
  | Nat.succ a =>
    match teaserB (t.drop (a + 1)) ((t.drop (a + 1)).takeWhile (fun c => !(c == '\n'))).length with
    | some r => some r
    | none => teaserA t a

/-- Match the Teaser heading pattern at the current position. -/
def matchTeaserAt (s : Str) : Option Str :=
  match s with
  | '#' :: '#' :: t => teaserA t (t.takeWhile isPySpace).length
  | _ => none

/-- Leftmost position where the Teaser heading pattern matches. -/
def findTeaserContent : Str → Option Str
  | [] => none
  | c :: rest =>
    match matchTeaserAt (c :: rest) with
    | some r => some r
    | none => findTeaserContent rest

/-- build.py extract_teaser: the Teaser section body, stripped, no further
processing. -/
def extract_teaser (text : Str) : Str :=
  match findTeaserContent text with
  | none => []
  | some cs => stripStr (captureSection cs)

-- ── FALLBACK INDEX (build.py extract_summary_from_existing and the diff twin) ─

/-- One record of the external fallback dataset, as load_existing_boxes builds
it: every entry carries the three fields. -/
structure Box where
  name : Str
  diff : Str
  summary : Str
deriving DecidableEq

/-- The fuzzy-matching normalisation: lower-case, then remove every character
that is not a letter or digit (the non-word-or-underscore class). -/
def nameClean (s : Str) : Str := (lowerStr s).filter (fun c => c.isAlphanum)

/-- build.py extract_summary_from_existing: scan the dataset in load order; for
each entry first the exact case-insensitive name test, then the normalised name
test; the first matching entry's summary is returned, else the empty string. -/
def extract_summary_from_existing (name : Str) : List Box → Str
  | [] => []
  | b :: rest =>
    if lowerStr b.name == lowerStr name then b.summary
    else if nameClean b.name == nameClean name then b.summary
    else extract_summary_from_existing name rest

/-- build.py extract_diff_from_existing: same scan, returning the entry's
difficulty field. -/
def extract_diff_from_existing (name : Str) : List Box → Str
  | [] => []
  | b :: rest =>
    if lowerStr b.name == lowerStr name then b.diff
    else if nameClean b.name == nameClean name then b.diff
    else extract_diff_from_existing name rest

-- ── PRIVACY AND COMPLETION FLAGS (build.py is_private, process_box) ──────────

/-- build.py is_private: lock glyph in the raw status value, or the
case-insensitive substring private.  (The source function also receives the
document text but never reads it.) -/
def is_private (meta : List (Str × Str)) : Bool :=
  let status := metaGetD meta (str "status") []
  status.contains '🔒' || containsSubstr (str "private") (lowerStr status)

/-- process_box line computing pwned: true unless the raw status value contains
the hourglass glyph. -/
def pwnedOf (meta : List (Str × Str)) : Bool :=
  !(metaGetD meta (str "status") []).contains '⏳'

-- ── FIELD NORMALISATION (build.py DIFF_MAP, build_front_matter) ──────────────

/-- The fixed difficulty synonym table of build.py. -/
def DIFF_MAP : List (Str × Str) :=
  [ (str "easy", str "Easy"), (str "medium", str "Medium"), (str "hard", str "Hard"),
    (str "insane", str "Insane"), (str "medium-hard", str "Hard"),
    (str "varied", str "Varied"), (str "basic", str "Easy"), (str "season", str "Varied") ]

/-- Python dict.get over the synonym table. -/
def dictGetD (m : List (Str × Str)) (k d : Str) : Str :=
  match m.find? (fun p => p.1 == k) with
  | some p => p.2
  | none => d

/-- The single-character decoration class of the difficulty truncation: pipe,
middot, hyphen, en-dash, backslash. -/
def isDecoChar (c : Char) : Bool :=
  c = '|' || c = '·' || c = '-' || c = '–' || c = '\\'

/-- Prefix before the leftmost decoration match: a decoration character, two or
more consecutive whitespace characters, or a pair of stars (the re.split of
build_front_matter, keeping only the first piece). -/
def splitDecoration : Str → Str
  | [] => []
  | c :: rest =>
    if isDecoChar c then []
    else if isPySpace c && (match rest with | d :: _ => isPySpace d | [] => false) then []
    else if c = '*' && (match rest with | d :: _ => d = '*' | [] => false) then []
    else c :: splitDecoration rest

/-- Python str.split()[0] on an already stripped string: drop leading
whitespace, keep up to the next whitespace. -/
def firstToken (s : Str) : Str :=
  (s.dropWhile isPySpace).takeWhile (fun c => !(isPySpace c))

/-- Scanner for Python str.title: a cased character is upper-cased after a
non-cased character and lower-cased otherwise (ASCII model). -/
def titleGo : Bool → Str → Str
  | _, [] => []
  | prevAlpha, c :: rest =>
    (if c.isAlpha then (if prevAlpha then c.toLower else c.toUpper) else c) :: titleGo c.isAlpha rest

/-- Python str.title (ASCII model). -/
def titleStr (s : Str) : Str := titleGo false s

/-- The cleanup steps of build_front_matter on the raw difficulty: strip,
truncate at the first decoration, remove non-word non-space characters, strip,
keep the first token of a non-empty result. -/
def cleanDiffRaw (d : Str) : Str :=
  let d1 := stripStr d
  let d2 := stripStr (splitDecoration d1)
  let d3 := stripStr (d2.filter (fun c => isWordChar c || isPySpace c))
  if d3.isEmpty then [] else firstToken d3

/-- The final mapping step of build_front_matter: the synonym table on the
lower-cased token, title-casing an unmapped non-empty token, Unknown for an
empty one. -/
def diffFinal (d : Str) : Str :=
  dictGetD DIFF_MAP (lowerStr d) (if d.isEmpty then str "Unknown" else titleStr d)

/-- Difficulty resolution of build_front_matter, including the fallback
substitution when the cleaned token is empty or unknown and the dataset is
non-empty. -/
def resolveDiff (name : Str) (meta : List (Str × Str)) (existing : List Box) : Str :=
  let clean := cleanDiffRaw (metaGetD meta (str "difficulty") [])
  let d :=
    if (clean.isEmpty || lowerStr clean == str "unknown") && !existing.isEmpty then
      extract_diff_from_existing name existing
    else clean
  diffFinal d

/-- The os slot of build_front_matter: the parsed platform attribute when
present, else the parsed os attribute; cleaned, then mapped onto Linux and
Windows, other values passing through. -/
def resolveOs (meta : List (Str × Str)) : Str :=
  let raw := stripStr ((metaFind meta (str "platform")).getD (metaGetD meta (str "os") []))
  let v := stripStr (raw.filter (fun c => isWordChar c || isPySpace c))
  if lowerStr v == str "linux" || lowerStr v == str "unix" || lowerStr v == str "freebsd" then
    str "Linux"
  else if lowerStr v == str "windows" then str "Windows"
  else v

/-- Split at every pipe, comma or semicolon (the tag re.split, with empty
pieces kept for the later filter). -/
def splitTagSeps : Str → List Str
  | [] => [[]]
  | c :: rest =>
    if c = '|' || c = ',' || c = ';' then [] :: splitTagSeps rest
    else
      match splitTagSeps rest with
      | [] => [[c]]
      | l :: ls => (c :: l) :: ls

/-- Tag list of build_front_matter: split the stripped category value, strip
each piece, drop empty pieces; an empty value yields no tags. -/
def resolveTags (meta : List (Str × Str)) : List Str :=
  let cv := stripStr (metaGetD meta (str "category") [])
  if cv.isEmpty then []
  else ((splitTagSeps cv).map stripStr).filter (fun t => !t.isEmpty)

-- ── RECORD BUILDER (build.py build_front_matter, process_box) ────────────────

/-- The values build_front_matter returns: the rendered front-matter text and
the three normalised fields. -/
structure FMOut where
  fm : Str
  diff : Str
  osv : Str
  tags : List Str

/-- Join with a separator (Python str.join). -/
def joinSep (sep : Str) : List Str → Str
  | [] => []
  | [x] => x
  | x :: y :: rest => x ++ sep ++ joinSep sep (y :: rest)

/-- build.py build_front_matter: resolve difficulty, os and tags and render the
front-matter block with its fixed key order and conditional lines.  The summary
parameter of the source is received and never used, as in the source. -/
def build_front_matter (name : Str) (meta : List (Str × Str)) (category platform : Str)
    (_summary : Str) (pwned : Bool) (dateStr : Str) (existing : List Box) : FMOut :=
  let diff := resolveDiff name meta existing
  let osv := resolveOs meta
  let tags := resolveTags meta
  let fm := str "---\nlayout: writeup\n"
    ++ str "name: \"" ++ name ++ str "\"\n"
    ++ str "platform: \"" ++ platform ++ str "\"\n"
    ++ str "category: \"" ++ category ++ str "\"\n"
    ++ str "difficulty: \"" ++ diff ++ str "\"\n"
    ++ str "permalink: /writeups/" ++ category ++ str "/" ++ slugify name ++ str "/\n"
    ++ (if osv.isEmpty then [] else str "os: \"" ++ osv ++ str "\"\n")
    ++ (if tags.isEmpty then [] else str "tags: [" ++ joinSep (str ", ") tags ++ str "]\n")
    ++ (if dateStr.isEmpty then [] else str "date: " ++ dateStr ++ str "\n")
    ++ (if pwned then str "pwned: true\n" else [])
    ++ str "---\n"
  ⟨fm, diff, osv, tags⟩

/-- The per-document record process_box returns to the caller.  The source's
private key is called priv here because private is reserved in Lean. -/
structure BoxResult where
  name : Str
  diff : Str
  os : Str
  platform : Str
  category : Str
  status : Str
  priv : Bool
  summary : Str
  url : Str
  date : Str

/-- Python or on strings: the first operand when non-empty, else the second. -/
def pyOr (a b : Str) : Str := if a.isEmpty then b else a

/-- build.py process_box, restricted to the record computation (file discovery,
modification-time reading and output writing are the excluded collaborators;
the date string is received already rendered). -/
def process_box (name text category platform dateStr : Str) (existing : List Box) : BoxResult :=
  let meta := parse_readme_meta text
  let priv := is_private meta
  let teaser := extract_teaser text
  let summary :=
    pyOr (extract_summary_from_readme text)
      (pyOr (extract_summary_from_existing name existing) (if priv then teaser else []))
  let pwned := pwnedOf meta
  let r := build_front_matter name meta category platform summary pwned dateStr existing
  { name := name, diff := r.diff, os := r.osv, platform := platform, category := category,
    status := if pwned then str "✅" else str "⏳", priv := priv, summary := summary,
    url := str "/writeups/" ++ category ++ str "/" ++ slugify name ++ str "/",
    date := dateStr }

-- ── SPEC-SIDE DEFINITION FOR CLAIM C4 ────────────────────────────────────────

/-- Modelled from the spec's words for comparison (C4): scan the dataset in its
original load order; the first entry whose name matches either by exact
case-insensitive equality or by normalised equality wins and supplies the
requested field; no match yields the empty string. -/
def lookupFirstHit (f : Box → Str) (name : Str) (boxes : List Box) : Str :=
  match boxes.find?
      (fun b => (lowerStr b.name == lowerStr name) || (nameClean b.name == nameClean name)) with
  | some b => f b
  | none => []

-- ── SPEC-SIDE DEFINITIONS FOR CLAIM C2 ───────────────────────────────────────

/-- Decoration test at a position of the candidate, following the claim's step
one: a pipe, middot, hyphen or en-dash, backslash, two or more consecutive
whitespace characters, or a bold-marker pair begins here. -/
def isDecoStart : Str → Bool
  | [] => false
  | c :: rest =>
    isDecoChar c ||
    (isPySpace c && (match rest with | d :: _ => isPySpace d | [] => false)) ||
    (c = '*' && (match rest with | d :: _ => d = '*' | [] => false))

/-- Modelled from the claim's words (C2): truncation at the first decoration
occurrence, stated through the list of suffixes of the candidate. -/
def specTruncate (s : Str) : Str :=
  s.take (s.tails.findIdx (fun t => isDecoStart t || t.isEmpty))

/-- The synonym table exactly as the claim lists it. -/
def specSynonyms : List (Str × Str) :=
  [ (str "easy", str "Easy"), (str "medium", str "Medium"), (str "hard", str "Hard"),
    (str "insane", str "Insane"), (str "medium-hard", str "Hard"),
    (str "varied", str "Varied"), (str "basic", str "Easy"), (str "season", str "Varied") ]

/-- Mapping step per the claim: the lower-cased token through the table,
title-casing an unmapped token, Unknown for an empty token. -/
def specMapToken (t : Str) : Str :=
  dictGetD specSynonyms (lowerStr t) (if t.isEmpty then str "Unknown" else titleStr t)

/-- Cleanup per the claim with a parameterised kept-character class, the
surrounding-whitespace strips of the source applied between the steps. -/
def specClean (keep : Char → Bool) (d : Str) : Str :=
  let d1 := stripStr d
  let d2 := stripStr (specTruncate d1)
  let d3 := stripStr (d2.filter keep)
  if d3.isEmpty then [] else firstToken d3

/-- Modelled from the claim's words (C2) as written: characters that are not
alphanumeric and not whitespace are stripped, underscore included. -/
def diffSpecClaimed (d : Str) : Str :=
  specMapToken (specClean (fun c => c.isAlphanum || isPySpace c) d)

/-- The amended cleanup class: characters outside word characters (letter,
digit, underscore) and whitespace are stripped, so underscore survives. -/
def diffSpecAmended (d : Str) : Str :=
  specMapToken (specClean (fun c => c.isAlphanum || c = '_' || isPySpace c) d)

/-- Demonstration document for C6: a Summary section whose first paragraph
spans two lines and carries emphasis markers, followed by a second paragraph
and a later section. -/
def demoDoc : Str :=
  str "# Intro\n## Summary\nChangelog leak **to** root\nvia *LFI*.\n\nMore detail here.\n## Walkthrough\nsteps"

/-- No two consecutive hyphens occur in the string (C7 output invariant). -/
def noTwoHyphens (s : Str) : Prop :=
  List.Chain' (fun a b => ¬(a = '-' ∧ b = '-')) s

-- ── SANITY EXAMPLES ─────────────────────────────────────────────────────────

example : slugify (str "Re: Lock") = str "re-lock" := by decide
example : slugify (str "re lock") = str "re-lock" := by decide
example : slugify (str "  My_Box -- 2 ") = str "my-box-2" := by decide

-- ── CLAIM THEOREMS ───────────────────────────────────────────────────────────

/-- C1: For every document, the resolved summary is the first non-empty result
of the strict priority chain: the Summary section of the body, then the
fallback-index summary for the document's name, then the Teaser section, the
teaser tier being consulted only when the document is private; a non-private
document whose first two tiers are empty resolves to the empty string and the
teaser is never consulted. -/
theorem C1_summary_priority_chain :
    ∀ (name text category platform dateStr : Str) (existing : List Box),
      (extract_summary_from_readme text ≠ [] →
        (process_box name text category platform dateStr existing).summary =
          extract_summary_from_readme text) ∧
      (extract_summary_from_readme text = [] →
        extract_summary_from_existing name existing ≠ [] →
        (process_box name text category platform dateStr existing).summary =
          extract_summary_from_existing name existing) ∧
      (extract_summary_from_readme text = [] →
        extract_summary_from_existing name existing = [] →
        is_private (parse_readme_meta text) = true →
        (process_box name text category platform dateStr existing).summary =
          extract_teaser text) ∧
      (extract_summary_from_readme text = [] →
        extract_summary_from_existing name existing = [] →
        is_private (parse_readme_meta text) = false →
        (process_box name text category platform dateStr existing).summary = []) := by
  intro name text category platform dateStr existing
  have hs : (process_box name text category platform dateStr existing).summary =
      pyOr (extract_summary_from_readme text)
        (pyOr (extract_summary_from_existing name existing)
          (if is_private (parse_readme_meta text) then extract_teaser text else [])) := rfl
  refine ⟨fun h1 => ?_, fun h1 h2 => ?_, fun h1 h2 h3 => ?_, fun h1 h2 h3 => ?_⟩ <;> rw [hs]
  · simp [pyOr, h1]
  · simp [pyOr, h1, h2]
  · simp [pyOr, h1, h2, h3]
  · simp [pyOr, h1, h2, h3]

/-- Witness for C1 at a concrete private document with no Summary section and
no fallback entry: tier three resolves to the teaser. -/
theorem C1_summary_priority_chain_witness :
    (process_box (str "Box") (str "**Status:** 🔒 Private\n## Teaser\nFoothold teaser.\n")
        (str "active") (str "HackTheBox") (str "2024-01-01") []).summary =
      extract_teaser (str "**Status:** 🔒 Private\n## Teaser\nFoothold teaser.\n") :=
  (C1_summary_priority_chain (str "Box")
      (str "**Status:** 🔒 Private\n## Teaser\nFoothold teaser.\n")
      (str "active") (str "HackTheBox") (str "2024-01-01") []).2.2.1
    (by decide) (by decide) (by decide)

/-- C3: When the cleaned difficulty token is empty or unknown and a fallback
difficulty is available for the document's name, the fallback value is
substituted before the synonym-table mapping; an empty raw difficulty with a
medium-hard fallback entry normalises to Hard. -/
theorem C3_fallback_difficulty_substitution :
    (∀ (name : Str) (meta : List (Str × Str)) (existing : List Box),
      (cleanDiffRaw (metaGetD meta (str "difficulty") []) = [] ∨
       lowerStr (cleanDiffRaw (metaGetD meta (str "difficulty") [])) = str "unknown") →
      extract_diff_from_existing name existing ≠ [] →
      resolveDiff name meta existing = diffFinal (extract_diff_from_existing name existing)) ∧
    (resolveDiff (str "MyBox") [] [Box.mk (str "MyBox") (str "medium-hard") []] = str "Hard") := by
  constructor
  · intro name meta existing hclean hfb
    have hex : existing.isEmpty = false := by
      cases existing with
      | nil => simp [extract_diff_from_existing] at hfb
      | cons a t => rfl
    have h1 : ((cleanDiffRaw (metaGetD meta (str "difficulty") [])).isEmpty
        || (lowerStr (cleanDiffRaw (metaGetD meta (str "difficulty") [])) == str "unknown"))
        = true := by
      rcases hclean with h | h
      · simp [h]
      · simp [h]
    simp [resolveDiff, h1, hex]
  · decide

/-- Witness for C3 at a concrete document with an absent difficulty attribute
and a varied fallback entry. -/
theorem C3_fallback_difficulty_substitution_witness :
    resolveDiff (str "Apex") [] [Box.mk (str "Apex") (str "varied") []] =
      diffFinal (extract_diff_from_existing (str "Apex") [Box.mk (str "Apex") (str "varied") []]) :=
  C3_fallback_difficulty_substitution.1 (str "Apex") [] [Box.mk (str "Apex") (str "varied") []]
    (Or.inl (by decide)) (by decide)

/-- C4: Fallback-index lookup matches entries scanning the dataset in load
order, an entry hitting either by exact case-insensitive name equality or by
normalised name equality, the first hit winning; no match yields the empty
string. -/
theorem C4_fallback_lookup_policy :
    (∀ (name : Str) (boxes : List Box),
      extract_summary_from_existing name boxes = lookupFirstHit Box.summary name boxes) ∧
    (∀ (name : Str) (boxes : List Box),
      extract_diff_from_existing name boxes = lookupFirstHit Box.diff name boxes) ∧
    (extract_summary_from_existing (str "lock 2")
        [Box.mk (str "Lock-2") (str "easy") (str "S")] = str "S") ∧
    (extract_summary_from_existing (str "ghost")
        [Box.mk (str "Lock-2") (str "easy") (str "S")] = []) := by
  refine ⟨fun name boxes => ?_, fun name boxes => ?_, by decide, by decide⟩
  · induction boxes with
    | nil => rfl
    | cons b t ih =>
      by_cases h1 : (lowerStr b.name == lowerStr name) = true
      · simp [extract_summary_from_existing, lookupFirstHit, List.find?, h1]
      · by_cases h2 : (nameClean b.name == nameClean name) = true
        · simp [extract_summary_from_existing, lookupFirstHit, List.find?, h1, h2]
        · simp only [extract_summary_from_existing, lookupFirstHit, List.find?] at ih ⊢
          simp [h1, h2, ih]
  · induction boxes with
    | nil => rfl
    | cons b t ih =>
      by_cases h1 : (lowerStr b.name == lowerStr name) = true
      · simp [extract_diff_from_existing, lookupFirstHit, List.find?, h1]
      · by_cases h2 : (nameClean b.name == nameClean name) = true
        · simp [extract_diff_from_existing, lookupFirstHit, List.find?, h1, h2]
        · simp only [extract_diff_from_existing, lookupFirstHit, List.find?] at ih ⊢
          simp [h1, h2, ih]

/-- C8: is_private is derived from the status attribute alone: true exactly
when the raw status value contains the lock glyph or the case-insensitive
substring private; a document with no status attribute is not private. -/
theorem C8_private_from_status :
    (∀ meta : List (Str × Str),
      is_private meta = true ↔
        ((metaGetD meta (str "status") []).contains '🔒' = true ∨
         containsSubstr (str "private") (lowerStr (metaGetD meta (str "status") [])) = true)) ∧
    (∀ m m' : List (Str × Str),
      metaGetD m (str "status") [] = metaGetD m' (str "status") [] →
      is_private m = is_private m') ∧
    (∀ meta : List (Str × Str), metaFind meta (str "status") = none → is_private meta = false) ∧
    (∀ (name text category platform dateStr : Str) (existing : List Box),
      (process_box name text category platform dateStr existing).priv =
        is_private (parse_readme_meta text)) := by
  refine ⟨fun meta => ?_, fun m m' h => ?_, fun meta h => ?_, fun _ _ _ _ _ _ => rfl⟩
  · simp [is_private]
  · simp only [is_private, h]
  · have h0 : metaGetD meta (str "status") [] = [] := by simp [metaGetD, h]
    unfold is_private
    rw [h0]
    decide

/-- Witness for C8 at concrete attribute maps without a status attribute. -/
theorem C8_private_from_status_witness :
    is_private [(str "difficulty", str "Easy")] = false ∧ is_private [] = false :=
  ⟨C8_private_from_status.2.2.1 [(str "difficulty", str "Easy")] (by decide),
   C8_private_from_status.2.2.1 [] (by decide)⟩

/-- C9: The record's pwned flag is true unless the raw status value contains
the hourglass glyph; an absent status also yields pwned, and the record's
status marker renders accordingly. -/
theorem C9_pwned_unless_hourglass :
    (∀ meta : List (Str × Str),
      ((metaGetD meta (str "status") []).contains '⏳' = true → pwnedOf meta = false) ∧
      ((metaGetD meta (str "status") []).contains '⏳' = false → pwnedOf meta = true)) ∧
    (∀ meta : List (Str × Str), metaFind meta (str "status") = none → pwnedOf meta = true) ∧
    (∀ (name text category platform dateStr : Str) (existing : List Box),
      (process_box name text category platform dateStr existing).status =
        (if pwnedOf (parse_readme_meta text) then str "✅" else str "⏳")) := by
  refine ⟨fun meta => ⟨fun h => ?_, fun h => ?_⟩, fun meta h => ?_, fun _ _ _ _ _ _ => rfl⟩
  · unfold pwnedOf
    rw [h]
    rfl
  · unfold pwnedOf
    rw [h]
    rfl
  · have h0 : metaGetD meta (str "status") [] = [] := by simp [metaGetD, h]
    unfold pwnedOf
    rw [h0]
    decide

/-- Witness for C9 at concrete status values with and without the hourglass. -/
theorem C9_pwned_unless_hourglass_witness :
    pwnedOf [(str "status", str "rooted ⏳ soon")] = false ∧
    pwnedOf [(str "status", str "🔒 Private")] = true :=
  ⟨(C9_pwned_unless_hourglass.1 [(str "status", str "rooted ⏳ soon")]).1 (by decide),
   (C9_pwned_unless_hourglass.1 [(str "status", str "🔒 Private")]).2 (by decide)⟩

/-- C10: A substituted fallback difficulty reaches the synonym table verbatim,
with none of the truncation, stripping or first-token cleanup applied: an empty
raw difficulty with a medium-hard fallback maps to Hard, while the same string
parsed from the document truncates at its hyphen and normalises to Medium. -/
theorem C10_fallback_reaches_map_verbatim :
    (∀ (name : Str) (meta : List (Str × Str)) (existing : List Box),
      (cleanDiffRaw (metaGetD meta (str "difficulty") []) = [] ∨
       lowerStr (cleanDiffRaw (metaGetD meta (str "difficulty") [])) = str "unknown") →
      existing ≠ [] →
      resolveDiff name meta existing =
        dictGetD DIFF_MAP (lowerStr (extract_diff_from_existing name existing))
          (if (extract_diff_from_existing name existing).isEmpty then str "Unknown"
           else titleStr (extract_diff_from_existing name existing))) ∧
    (resolveDiff (str "Zephyr") [] [Box.mk (str "Zephyr") (str "medium-hard") []] = str "Hard") ∧
    (resolveDiff (str "Zephyr") [(str "difficulty", str "medium-hard")]
        [Box.mk (str "Zephyr") (str "medium-hard") []] = str "Medium") ∧
    (cleanDiffRaw (str "medium-hard") = str "medium") := by
  refine ⟨fun name meta existing hclean hex => ?_, by decide, by decide, by decide⟩
  have hex' : existing.isEmpty = false := by
    cases existing with
    | nil => exact absurd rfl hex
    | cons a t => rfl
  have h1 : ((cleanDiffRaw (metaGetD meta (str "difficulty") [])).isEmpty
      || (lowerStr (cleanDiffRaw (metaGetD meta (str "difficulty") [])) == str "unknown"))
      = true := by
    rcases hclean with h | h
    · simp [h]
    · simp [h]
  simp [resolveDiff, diffFinal, h1, hex']

/-- Witness for C10 at a concrete document whose difficulty attribute cleans to
empty and whose fallback entry carries a season difficulty. -/
theorem C10_fallback_reaches_map_verbatim_witness :
    resolveDiff (str "Nexus") [(str "difficulty", str "???")]
        [Box.mk (str "Nexus") (str "season") []] =
      dictGetD DIFF_MAP
        (lowerStr (extract_diff_from_existing (str "Nexus")
          [Box.mk (str "Nexus") (str "season") []]))
        (if (extract_diff_from_existing (str "Nexus")
              [Box.mk (str "Nexus") (str "season") []]).isEmpty then str "Unknown"
         else titleStr (extract_diff_from_existing (str "Nexus")
              [Box.mk (str "Nexus") (str "season") []])) :=
  C10_fallback_reaches_map_verbatim.1 (str "Nexus") [(str "difficulty", str "???")]
    [Box.mk (str "Nexus") (str "season") []] (Or.inl (by decide)) (by decide)

/-- C5 counterexample: two attribute maps agreeing on the os attribute and
differing only in the parsed platform attribute produce different os fields in
the record, refuting the claimed independence. -/
theorem C5_counterexample :
    metaGetD [(str "platform", str "Windows"), (str "os", str "Debian")] (str "os") [] =
      metaGetD [(str "platform", str "Linux"), (str "os", str "Debian")] (str "os") [] ∧
    (build_front_matter (str "Box") [(str "platform", str "Windows"), (str "os", str "Debian")]
        (str "retired") (str "HackTheBox") [] true (str "2024-01-01") []).osv = str "Windows" ∧
    (build_front_matter (str "Box") [(str "platform", str "Linux"), (str "os", str "Debian")]
        (str "retired") (str "HackTheBox") [] true (str "2024-01-01") []).osv = str "Linux" ∧
    (str "Windows" : Str) ≠ str "Linux" := by decide

/-- C5 amended: either an OS-labeled or a Platform-labeled line may populate
the os attribute slot; the record's os field is computed from the parsed
platform attribute when present, falling back to the os attribute, and it is
independent of the site-categorisation platform parameter supplied by the scan
configuration. -/
theorem C5_os_resolution_amended :
    (metaFind (parse_readme_meta (str "**OS:** Debian\n")) (str "os") = some (str "Debian")) ∧
    (metaFind (parse_readme_meta (str "**Platform:** Windows\n")) (str "os") =
      some (str "Windows")) ∧
    (∀ (meta : List (Str × Str)) (v : Str),
      metaFind meta (str "platform") = some v →
      resolveOs meta = resolveOs [(str "platform", v)]) ∧
    (∀ meta : List (Str × Str),
      metaFind meta (str "platform") = none →
      resolveOs meta = resolveOs [(str "os", metaGetD meta (str "os") [])]) ∧
    (∀ (name : Str) (meta : List (Str × Str)) (category p1 p2 summary : Str) (pwned : Bool)
        (dateStr : Str) (existing : List Box),
      (build_front_matter name meta category p1 summary pwned dateStr existing).osv =
        (build_front_matter name meta category p2 summary pwned dateStr existing).osv) := by
  refine ⟨by decide, by decide, fun meta v h => ?_, fun meta h => ?_,
    fun _ _ _ _ _ _ _ _ _ => rfl⟩
  · have h2 : metaFind [(str "platform", v)] (str "platform") = some v := by
      simp [metaFind, List.find?]
    simp only [resolveOs, h, h2, Option.getD_some]
  · have h2 : metaFind [(str "os", metaGetD meta (str "os") [])] (str "platform") = none := by
      simp [metaFind, List.find?, str]
    have h3 : metaGetD [(str "os", metaGetD meta (str "os") [])] (str "os") [] =
        metaGetD meta (str "os") [] := by
      simp [metaGetD, metaFind, List.find?]
    simp only [resolveOs, h, h2, h3, Option.getD_none]

/-- Witness for C5 at a concrete attribute map carrying both labels: the
platform attribute takes precedence. -/
theorem C5_os_resolution_amended_witness :
    resolveOs [(str "platform", str "Debian 12"), (str "os", str "Windows")] =
      resolveOs [(str "platform", str "Debian 12")] :=
  C5_os_resolution_amended.2.2.1
    [(str "platform", str "Debian 12"), (str "os", str "Windows")]
    (str "Debian 12") (by decide)

/-- C6: For a document whose Summary section extraction is non-empty, the
resolved summary equals that extraction - the section's first paragraph with
newlines collapsed and emphasis markers stripped - regardless of any fallback
dataset content. -/
theorem C6_summary_section_preferred :
    (∀ (name text category platform dateStr : Str) (existing : List Box),
      extract_summary_from_readme text ≠ [] →
      (process_box name text category platform dateStr existing).summary =
        extract_summary_from_readme text) ∧
    (extract_summary_from_readme demoDoc = str "Changelog leak to root via LFI.") ∧
    ((process_box (str "Demo") demoDoc (str "retired") (str "HackTheBox") (str "2024-01-01")
        [Box.mk (str "Demo") (str "easy") (str "Fallback summary to be ignored.")]).summary =
      str "Changelog leak to root via LFI.") := by
  refine ⟨fun name text category platform dateStr existing h1 => ?_, by decide, by decide⟩
  have hs : (process_box name text category platform dateStr existing).summary =
      pyOr (extract_summary_from_readme text)
        (pyOr (extract_summary_from_existing name existing)
          (if is_private (parse_readme_meta text) then extract_teaser text else [])) := rfl
  rw [hs]
  simp [pyOr, h1]

/-- Witness for C6 applying the universal part at the demonstration document
with a non-empty fallback dataset. -/
theorem C6_summary_section_preferred_witness :
    (process_box (str "W") demoDoc (str "thm") (str "TryHackMe") (str "2023-05-05")
        [Box.mk (str "W") (str "hard") (str "Other text.")]).summary =
      extract_summary_from_readme demoDoc :=
  C6_summary_section_preferred.1 (str "W") demoDoc (str "thm") (str "TryHackMe")
    (str "2023-05-05") [Box.mk (str "W") (str "hard") (str "Other text.")] (by decide)

/-- The star character is not in the single-character decoration class. -/
theorem isDecoChar_star : isDecoChar '*' = false := by decide

/-- The star character is not whitespace. -/
theorem isPySpace_star : isPySpace '*' = false := by decide

/-- Unfolding of the source's truncation scanner at a cons cell as a single
decoration test. -/
theorem splitDecoration_cons (c : Char) (rest : Str) :
    splitDecoration (c :: rest) =
      (if isDecoStart (c :: rest) then [] else c :: splitDecoration rest) := by
  cases rest with
  | nil =>
    cases h1 : isDecoChar c <;> simp [splitDecoration, isDecoStart, h1]
  | cons d t =>
    cases h1 : isDecoChar c <;> cases h2 : isPySpace c <;> cases h3 : isPySpace d <;>
      by_cases h4 : c = '*' <;> by_cases h5 : d = '*' <;>
        simp [splitDecoration, isDecoStart, h1, h2, h3, h4, h5, isDecoChar_star, isPySpace_star]

/-- The suffix-list statement of the claim's truncation agrees with the
source's truncation scanner. -/
theorem specTruncate_eq (s : Str) : specTruncate s = splitDecoration s := by
  induction s with
  | nil => rfl
  | cons c rest ih =>
    rw [splitDecoration_cons]
    by_cases h : isDecoStart (c :: rest) = true
    · simp [specTruncate, List.tails, List.findIdx_cons, h]
    · have hne : (c :: rest).isEmpty = false := rfl
      simp only [specTruncate, List.tails, List.findIdx_cons, h, hne, Bool.or_self,
        Bool.false_or, cond_false, if_neg h]
      rw [List.take_succ_cons]
      exact congrArg (c :: ·) ih

/-- The claim's synonym table is the source's table. -/
theorem specSynonyms_eq : specSynonyms = DIFF_MAP := rfl

/-- The two kept-character classes of the amended cleanup and the source
coincide. -/
theorem keepPredEq :
    (fun c => c.isAlphanum || c = '_' || isPySpace c) =
      (fun c => isWordChar c || isPySpace c) := by
  funext c
  simp [isWordChar, Bool.or_assoc]

/-- C2 counterexample: on the raw candidate easy underscore, the source keeps
the underscore (a word character) while the claim's cleanup strips it, so the
normalised values differ. -/
theorem C2_counterexample :
    diffSpecClaimed (str "easy_") = str "Easy" ∧
    diffFinal (cleanDiffRaw (str "easy_")) = str "Easy_" ∧
    (str "Easy" : Str) ≠ str "Easy_" := by decide

/-- C2 amended: difficulty normalisation truncates at the first decoration,
strips remaining characters outside word characters (letter, digit or
underscore) and whitespace, keeps the first token, and maps the lower-cased
token through the synonym table, title-casing unmapped tokens and yielding
Unknown for an empty token; the two cited examples normalise to Easy and
Hard, and the pipeline is what build_front_matter applies when no fallback
dataset is present. -/
theorem C2_difficulty_normalisation_amended :
    (∀ raw : Str, diffFinal (cleanDiffRaw raw) = diffSpecAmended raw) ∧
    (diffFinal (cleanDiffRaw (str "Easy | Linux")) = str "Easy") ∧
    (diffFinal (cleanDiffRaw (str "Hard — AD")) = str "Hard") ∧
    (∀ (name : Str) (meta : List (Str × Str)),
      resolveDiff name meta [] = diffFinal (cleanDiffRaw (metaGetD meta (str "difficulty") []))) := by
  refine ⟨fun raw => ?_, by decide, by decide, fun name meta => ?_⟩
  · have h1 : specClean (fun c => c.isAlphanum || c = '_' || isPySpace c) raw =
        cleanDiffRaw raw := by
      simp only [specClean, cleanDiffRaw, specTruncate_eq, keepPredEq]
    simp only [diffSpecAmended, h1, specMapToken, diffFinal, specSynonyms_eq]
  · simp [resolveDiff]

/-- Witness for C2 applying the no-fallback conjunct at a concrete attribute
map. -/
theorem C2_difficulty_normalisation_amended_witness :
    resolveDiff (str "Box") [(str "difficulty", str "Insane · AD")] [] =
      diffFinal (cleanDiffRaw (metaGetD [(str "difficulty", str "Insane · AD")]
        (str "difficulty") [])) :=
  C2_difficulty_normalisation_amended.2.2.2 (str "Box")
    [(str "difficulty", str "Insane · AD")]

-- ── SLUG LEMMAS (C7) ─────────────────────────────────────────────────────────

/-- ASCII lower-casing is idempotent. -/
theorem toLower_idem (c : Char) : c.toLower.toLower = c.toLower := by
  by_cases h : 65 ≤ c.toNat ∧ c.toNat ≤ 90
  · have h1 : c.toLower = Char.ofNat (c.toNat + 32) := by
      simp only [Char.toLower]
      rw [if_pos h]
    rw [h1]
    obtain ⟨hl, hr⟩ := h
    generalize c.toNat = n at hl hr
    interval_cases n <;> decide
  · have h1 : c.toLower = c := by
      simp only [Char.toLower]
      rw [if_neg h]
    rw [h1, h1]

/-- Whitespace characters are not alphanumeric. -/
theorem isPySpace_not_alnum {c : Char} (h : isPySpace c = true) : c.isAlphanum = false := by
  by_cases h1 : c = ' '
  · subst h1; decide
  by_cases h2 : c = '\t'
  · subst h2; decide
  by_cases h3 : c = '\n'
  · subst h3; decide
  by_cases h4 : c = '\r'
  · subst h4; decide
  by_cases h5 : c = '\x0b'
  · subst h5; decide
  by_cases h6 : c = '\x0c'
  · subst h6; decide
  rw [isPySpace] at h
  simp [h1, h2, h3, h4, h5, h6] at h

/-- Members of a stripped string are members of the string. -/
theorem mem_stripPred {c : Char} {p : Char → Bool} {s : Str} (h : c ∈ stripPred p s) :
    c ∈ s := by
  unfold stripPred at h
  rw [List.mem_reverse] at h
  have h2 := (List.dropWhile_suffix p).sublist.mem h
  rw [List.mem_reverse] at h2
  exact (List.dropWhile_suffix p).sublist.mem h2

/-- Members of a lower-cased string are lower-casing fixed points. -/
theorem mem_lowerStr {c : Char} {s : Str} (h : c ∈ lowerStr s) : c.toLower = c := by
  rcases List.mem_map.mp h with ⟨d, _, hd⟩
  rw [← hd]
  exact toLower_idem d

/-- Members of the whitespace-and-underscore substitution output are hyphens or
original non-run characters. -/
theorem mem_subSpUndGo {c : Char} :
    ∀ {b : Bool} {s : Str}, c ∈ subSpUndGo b s → c = '-' ∨ (c ∈ s ∧ isSpUnd c = false) := by
  intro b s
  induction b, s using subSpUndGo.induct with
  | case1 b => intro h; simp [subSpUndGo] at h
  | case2 a t hsp ih =>
    intro h
    rw [subSpUndGo, if_pos hsp, if_pos rfl] at h
    rcases ih h with h1 | ⟨h1, h2⟩
    · exact Or.inl h1
    · exact Or.inr ⟨List.mem_cons_of_mem a h1, h2⟩
  | case3 inRun a t hsp hfalse ih =>
    intro h
    rw [subSpUndGo, if_pos hsp, if_neg hfalse] at h
    rcases List.mem_cons.mp h with h1 | h1
    · exact Or.inl h1
    · rcases ih h1 with h2 | ⟨h2, h3⟩
      · exact Or.inl h2
      · exact Or.inr ⟨List.mem_cons_of_mem a h2, h3⟩
  | case4 inRun a t hsp ih =>
    intro h
    rw [subSpUndGo, if_neg hsp] at h
    rcases List.mem_cons.mp h with h1 | h1
    · subst h1
      refine Or.inr ⟨List.mem_cons_self c t, ?_⟩
      cases hh : isSpUnd c with
      | false => rfl
      | true => exact absurd hh hsp
    · rcases ih h1 with h2 | ⟨h2, h3⟩
      · exact Or.inl h2
      · exact Or.inr ⟨List.mem_cons_of_mem a h2, h3⟩

/-- Members of the hyphen-collapsing output are hyphens or members of the
input. -/
theorem mem_subHypGo {c : Char} :
    ∀ {b : Bool} {s : Str}, c ∈ subHypGo b s → c = '-' ∨ c ∈ s := by
  intro b s
  induction b, s using subHypGo.induct with
  | case1 b => intro h; simp [subHypGo] at h
  | case2 t ih =>
    intro h
    rw [subHypGo, if_pos rfl, if_pos rfl] at h
    rcases ih h with h1 | h1
    · exact Or.inl h1
    · exact Or.inr (List.mem_cons_of_mem _ h1)
  | case3 inRun t hfalse ih =>
    intro h
    rw [subHypGo, if_pos rfl, if_neg hfalse] at h
    rcases List.mem_cons.mp h with h1 | h1
    · exact Or.inl h1
    · rcases ih h1 with h2 | h2
      · exact Or.inl h2
      · exact Or.inr (List.mem_cons_of_mem _ h2)
  | case4 inRun a t hne ih =>
    intro h
    rw [subHypGo, if_neg hne] at h
    rcases List.mem_cons.mp h with h1 | h1
    · subst h1; exact Or.inr (List.mem_cons_self c t)
    · rcases ih h1 with h2 | h2
      · exact Or.inl h2
      · exact Or.inr (List.mem_cons_of_mem _ h2)

/-- Dropping while a predicate fails on every member changes nothing. -/
theorem dropWhile_eq_self_of_all {p : Char → Bool} {s : Str}
    (h : ∀ c ∈ s, p c = false) : s.dropWhile p = s := by
  cases s with
  | nil => rfl
  | cons a t =>
    have := h a (List.mem_cons_self a t)
    simp [List.dropWhile_cons, this]

/-- Stripping with a predicate failing on every member changes nothing. -/
theorem stripPred_eq_self_of_all {p : Char → Bool} {s : Str}
    (h : ∀ c ∈ s, p c = false) : stripPred p s = s := by
  unfold stripPred
  rw [dropWhile_eq_self_of_all h]
  rw [dropWhile_eq_self_of_all (fun c hc => h c (List.mem_reverse.mp hc))]
  exact List.reverse_reverse s

/-- Lower-casing a string of lower-casing fixed points changes nothing. -/
theorem lowerStr_eq_self_of_all {s : Str} (h : ∀ c ∈ s, c.toLower = c) :
    lowerStr s = s := by
  unfold lowerStr
  rw [List.map_congr_left h]
  exact List.map_id' s

/-- The whitespace-and-underscore substitution on a string with no run
character changes nothing, whatever the flag. -/
theorem subSpUndGo_eq_self_of_all {s : Str} (h : ∀ c ∈ s, isSpUnd c = false) :
    ∀ b, subSpUndGo b s = s := by
  induction s with
  | nil => intro b; rfl
  | cons a t ih =>
    intro b
    have ha : ¬isSpUnd a = true := by
      simp [h a (List.mem_cons_self a t)]
    rw [subSpUndGo, if_neg ha]
    exact congrArg (a :: ·) (ih (fun c hc => h c (List.mem_cons_of_mem a hc)) false)

/-- The hyphen-collapsing scanner leaves a string without consecutive hyphens
unchanged, provided the flag is consistent with the head. -/
theorem subHypGo_eq_self_of_chain :
    ∀ {s : Str} {b : Bool}, noTwoHyphens s → (b = true → s.head? ≠ some '-') →
      subHypGo b s = s := by
  intro s
  induction s with
  | nil => intro b _ _; rfl
  | cons a t ih =>
    intro b hc hb
    have hct := (List.chain'_cons'.mp hc).2
    have hhd := (List.chain'_cons'.mp hc).1
    by_cases ha : a = '-'
    · subst ha
      have hb' : b = false := by
        cases b with
        | false => rfl
        | true => exact (hb rfl rfl).elim
      subst hb'
      rw [subHypGo, if_pos rfl, if_neg (by simp)]
      refine congrArg ('-' :: ·) (ih hct ?_)
      intro _ hh
      cases t with
      | nil => simp at hh
      | cons x t' =>
        simp only [List.head?_cons, Option.some.injEq] at hh
        exact hhd x (by simp) ⟨rfl, hh⟩
    · rw [subHypGo, if_neg ha]
      refine congrArg (a :: ·) (ih hct ?_)
      intro hfalse
      simp at hfalse

/-- The hyphen-collapsing scanner never emits two consecutive hyphens, and
with the flag set its output does not start with a hyphen. -/
theorem subHypGo_props :
    ∀ (s : Str) (b : Bool),
      noTwoHyphens (subHypGo b s) ∧ (b = true → (subHypGo b s).head? ≠ some '-') := by
  intro s
  induction s with
  | nil =>
    intro b
    refine ⟨List.chain'_nil, fun _ => ?_⟩
    rw [subHypGo]
    simp
  | cons a t ih =>
    intro b
    by_cases ha : a = '-'
    · subst ha
      cases b with
      | true =>
        rw [subHypGo, if_pos rfl, if_pos rfl]
        exact ih true
      | false =>
        rw [subHypGo, if_pos rfl, if_neg (by simp)]
        constructor
        · rw [noTwoHyphens, List.chain'_cons']
          refine ⟨?_, (ih true).1⟩
          intro y hy hcontra
          have hy' := Option.mem_def.mp hy
          rw [hcontra.2] at hy'
          exact (ih true).2 rfl hy'
        · intro hfalse
          exact absurd hfalse (by simp)
    · rw [subHypGo, if_neg ha]
      constructor
      · rw [noTwoHyphens, List.chain'_cons']
        refine ⟨?_, (ih false).1⟩
        intro y _ hcontra
        exact ha hcontra.1
      · intro _ hh
        exact ha (Option.some.inj hh)

/-- The no-consecutive-hyphens invariant survives reversal. -/
theorem noTwoHyphens_reverse {s : Str} (h : noTwoHyphens s) : noTwoHyphens s.reverse := by
  rw [noTwoHyphens, List.chain'_reverse]
  exact h.imp (fun a b hab hc => hab ⟨hc.2, hc.1⟩)

/-- The no-consecutive-hyphens invariant survives stripping. -/
theorem noTwoHyphens_stripPred {p : Char → Bool} {s : Str} (h : noTwoHyphens s) :
    noTwoHyphens (stripPred p s) := by
  unfold stripPred
  apply noTwoHyphens_reverse
  exact List.Chain'.suffix (noTwoHyphens_reverse (List.Chain'.suffix h (List.dropWhile_suffix p)))
    (List.dropWhile_suffix p)

/-- The head of a drop-while output fails the predicate. -/
theorem head_dropWhile_false {p : Char → Bool} {s : Str} {c : Char}
    (h : (s.dropWhile p).head? = some c) : p c = false := by
  induction s with
  | nil => simp [List.dropWhile] at h
  | cons a t ih =>
    cases ha : p a with
    | true =>
      rw [List.dropWhile_cons, if_pos ha] at h
      exact ih h
    | false =>
      rw [List.dropWhile_cons, if_neg (by simp [ha])] at h
      simp only [List.head?_cons, Option.some.injEq] at h
      subst h
      exact ha

/-- The head of a stripped string fails the predicate. -/
theorem stripPred_head_false {p : Char → Bool} {s : Str} {c : Char}
    (h : (stripPred p s).head? = some c) : p c = false := by
  unfold stripPred at h
  rw [List.head?_reverse] at h
  have hne : ((s.dropWhile p).reverse.dropWhile p) ≠ [] := by
    intro hnil
    rw [hnil] at h
    simp at h
  obtain ⟨t, ht⟩ := List.dropWhile_suffix (l := (s.dropWhile p).reverse) (p := p)
  have h3 : ((s.dropWhile p).reverse.dropWhile p).getLast? =
      ((s.dropWhile p).reverse).getLast? := by
    conv_rhs => rw [← ht]
    rw [List.getLast?_append_of_ne_nil t hne]
  rw [h3, List.getLast?_reverse] at h
  exact head_dropWhile_false h

/-- The last character of a stripped string fails the predicate. -/
theorem stripPred_getLast_false {p : Char → Bool} {s : Str} {c : Char}
    (h : (stripPred p s).getLast? = some c) : p c = false := by
  unfold stripPred at h
  rw [List.getLast?_reverse] at h
  exact head_dropWhile_false h

/-- Stripping a string whose two ends already fail the predicate changes
nothing. -/
theorem stripPred_eq_self_of_ends {p : Char → Bool} {s : Str}
    (h1 : ∀ c, s.head? = some c → p c = false)
    (h2 : ∀ c, s.getLast? = some c → p c = false) : stripPred p s = s := by
  have hd : s.dropWhile p = s := by
    cases s with
    | nil => rfl
    | cons a t => simp [List.dropWhile_cons, h1 a rfl]
  have hd2 : s.reverse.dropWhile p = s.reverse := by
    cases hr : s.reverse with
    | nil => rfl
    | cons a t =>
      have ha : s.getLast? = some a := by
        rw [← List.head?_reverse, hr, List.head?_cons]
      simp [List.dropWhile_cons, h2 a ha]
  unfold stripPred
  rw [hd, hd2, List.reverse_reverse]

/-- Stripping is idempotent. -/
theorem stripPred_idem (p : Char → Bool) (s : Str) :
    stripPred p (stripPred p s) = stripPred p s :=
  stripPred_eq_self_of_ends (fun _ h => stripPred_head_false h)
    (fun _ h => stripPred_getLast_false h)

/-- Characters of a slug: a hyphen, or an alphanumeric lower-casing fixed
point. -/
theorem slug_chars {s : Str} :
    ∀ c ∈ slugify s, c = '-' ∨ (c.isAlphanum = true ∧ c.toLower = c) := by
  intro c hc
  unfold slugify at hc
  have h4 := mem_stripPred hc
  rcases mem_subHypGo h4 with h | h
  · exact Or.inl h
  rcases mem_subSpUndGo h with h' | ⟨h5, hspund⟩
  · exact Or.inl h'
  have h6 := List.mem_filter.mp h5
  have hkeep := h6.2
  have hfix := mem_lowerStr (mem_stripPred h6.1)
  have hws : isPySpace c = false := by
    cases hh : isPySpace c with
    | false => rfl
    | true =>
      rw [isSpUnd, hh] at hspund
      simp at hspund
  by_cases hhy : c = '-'
  · exact Or.inl hhy
  have hund : ¬(c = '_') := by
    intro he
    rw [isSpUnd, he] at hspund
    simp at hspund
  cases hA : c.isAlphanum with
  | true => exact Or.inr ⟨rfl, hfix⟩
  | false =>
    exfalso
    simp only [isWordChar] at hkeep
    rw [hA, hws] at hkeep
    simp [hhy, hund] at hkeep

/-- Whitespace never occurs in a slug. -/
theorem slug_no_space {s : Str} : ∀ c ∈ slugify s, isPySpace c = false := by
  intro c hc
  rcases slug_chars c hc with h | ⟨h1, _⟩
  · subst h; decide
  · cases hh : isPySpace c with
    | false => rfl
    | true =>
      rw [isPySpace_not_alnum hh] at h1
      exact absurd h1 (by simp)

/-- Neither whitespace nor the underscore occurs in a slug. -/
theorem slug_no_spund {s : Str} : ∀ c ∈ slugify s, isSpUnd c = false := by
  intro c hc
  unfold slugify at hc
  have h4 := mem_stripPred hc
  rcases mem_subHypGo h4 with h | h
  · subst h; decide
  rcases mem_subSpUndGo h with h' | ⟨_, hspund⟩
  · subst h'; decide
  · exact hspund

/-- The slug output satisfies the no-consecutive-hyphens invariant. -/
theorem slug_noTwoHyphens (s : Str) : noTwoHyphens (slugify s) := by
  unfold slugify
  exact noTwoHyphens_stripPred (subHypGo_props _ false).1

/-- A slug neither starts nor ends with a hyphen. -/
theorem slug_ends (s : Str) :
    (slugify s).head? ≠ some '-' ∧ (slugify s).getLast? ≠ some '-' := by
  constructor
  · intro h
    have h2 := stripPred_head_false (show (stripPred (· = '-') (subHyp (subSpUnd
      ((stripStr (lowerStr s)).filter (fun c => isWordChar c || isPySpace c || c = '-'))))).head?
        = some '-' from h)
    simp at h2
  · intro h
    have h2 := stripPred_getLast_false (show (stripPred (· = '-') (subHyp (subSpUnd
      ((stripStr (lowerStr s)).filter (fun c => isWordChar c || isPySpace c || c = '-'))))).getLast?
        = some '-' from h)
    simp at h2

/-- Slugification is idempotent. -/
theorem slugify_idem (s : Str) : slugify (slugify s) = slugify s := by
  have h1 : lowerStr (slugify s) = slugify s :=
    lowerStr_eq_self_of_all (fun c hc => by
      rcases slug_chars c hc with h | ⟨_, h⟩
      · subst h; decide
      · exact h)
  have h2 : stripStr (slugify s) = slugify s :=
    stripPred_eq_self_of_all (fun c hc => slug_no_space c hc)
  have h3 : (slugify s).filter (fun c => isWordChar c || isPySpace c || c = '-') = slugify s := by
    apply List.filter_eq_self.mpr
    intro c hc
    rcases slug_chars c hc with h | ⟨h, _⟩
    · subst h; decide
    · simp [isWordChar, h]
  have h4 : subSpUnd (slugify s) = slugify s :=
    subSpUndGo_eq_self_of_all (fun c hc => slug_no_spund c hc) false
  have h5 : subHyp (slugify s) = slugify s :=
    subHypGo_eq_self_of_chain (slug_noTwoHyphens s) (fun hfalse => absurd hfalse (by simp))
  have h6 : stripPred (· = '-') (slugify s) = slugify s := by
    show stripPred (· = '-') (stripPred (· = '-') (subHyp (subSpUnd
      ((stripStr (lowerStr s)).filter (fun c => isWordChar c || isPySpace c || c = '-'))))) = _
    rw [stripPred_idem]
    rfl
  show stripPred (· = '-') (subHyp (subSpUnd ((stripStr (lowerStr (slugify s))).filter
    (fun c => isWordChar c || isPySpace c || c = '-')))) = slugify s
  rw [h1, h2, h3, h4, h5, h6]

/-- C7 counterexample: the names ab and a-b differ only in punctuation and
have the same letter and digit content, yet their slugs differ, because the
hyphen is preserved rather than stripped. -/
theorem C7_counterexample :
    (str "ab").filter (fun c => c.isAlphanum) = (str "a-b").filter (fun c => c.isAlphanum) ∧
    slugify (str "ab") = str "ab" ∧
    slugify (str "a-b") = str "a-b" ∧
    slugify (str "ab") ≠ slugify (str "a-b") := by decide

/-- C7 amended: slug generation is deterministic and idempotent, with
slugify of slugify of a name equal to slugify of the name for every name;
names differing only in case or in stripped punctuation agree, as the two
cited exemplars do; and every produced slug consists of lower-case
alphanumerics and single hyphens with no leading or trailing hyphen. -/
theorem C7_slug_amended :
    (∀ s : Str, slugify (slugify s) = slugify s) ∧
    (slugify (str "Re: Lock") = str "re-lock" ∧ slugify (str "re lock") = str "re-lock") ∧
    (∀ s : Str,
      (∀ c ∈ slugify s, c = '-' ∨ (c.isAlphanum = true ∧ c.toLower = c)) ∧
      noTwoHyphens (slugify s) ∧
      (slugify s).head? ≠ some '-' ∧ (slugify s).getLast? ≠ some '-') :=
  ⟨slugify_idem, ⟨by decide, by decide⟩,
   fun s => ⟨slug_chars, slug_noTwoHyphens s, slug_ends s⟩⟩

end Build
